import Mathlib

/-!
A shallow embedding of the libdragon-docker CLI (`index.js`).

The program is a command-line wrapper that manages a single named docker
container hosting a build toolchain.  We embed:

* the string/path utilities the program relies on (JavaScript
  `String.prototype.split`/`replace`, lodash `uniq`, Node `path.posix.join`
  and `path.posix.normalize`);
* the option initialisation (project name, CI flag, derived self-build flag);
* the host-to-container path translation performed during `install`;
* the container-engine model: a store of named containers, a command
  language mirroring the exact external commands the program issues, and a
  step function giving each command its effect on the store, its textual
  output, and its success flag;
* the lifecycle operations `startToolchain`, `make`, `download`, `stop`,
  `buildDragon`, `init` and `update` as functions from an execution state
  (store, trace of issued commands, success flag) to an execution state;
* the dependency-installation phase of `install`;
* the `process.argv` dispatcher.
-/

namespace Dragon

/-- Split a character list at every occurrence of the separator `sep`;
the separator is dropped and empty segments are kept. -/
def splitChar (sep : Char) : List Char → List (List Char)
  | [] => [[]]
  | c :: cs =>
    if c = sep then [] :: splitChar sep cs
    else
      match splitChar sep cs with
      | [] => [[c]]
      | h :: t => (c :: h) :: t

/-- Join a list of strings, separating consecutive entries with `sep`. -/
def joinSep (sep : String) : List String → String
  | [] => ""
  | [x] => x
  | x :: y :: xs => x ++ sep ++ joinSep sep (y :: xs)

/-- Concatenate a list of strings. -/
def concatAll : List String → String
  | [] => ""
  | x :: xs => x ++ concatAll xs

/-- Decide whether the first list is a prefix of the second. -/
def isPrefixChars : List Char → List Char → Bool
  | [], _ => true
  | _ :: _, [] => false
  | p :: ps, c :: cs => p == c && isPrefixChars ps cs

/-- Embeds JavaScript `val.indexOf(pre) === 0`: the string starts with `pre`. -/
def strStartsWith (s pre : String) : Bool :=
  isPrefixChars pre.toList s.toList

/-- The string ends with the given suffix. -/
def strEndsWith (s suf : String) : Bool :=
  isPrefixChars suf.toList.reverse s.toList.reverse

/-- Replace the first occurrence of `sep` by `rep` in a character list. -/
def replaceFirstChar (sep rep : Char) : List Char → List Char
  | [] => []
  | c :: cs => if c = sep then rep :: cs else c :: replaceFirstChar sep rep cs

/-- Embeds `str.replace(new RegExp('\\' + path.sep), path.posix.sep)`
(index.js line 196): a regular expression built without the global flag
replaces only the FIRST occurrence of the separator. -/
def jsReplaceFirst (s : String) (sep rep : Char) : String :=
  String.mk (replaceFirstChar sep rep s.toList)

/-- Lines of a command output: split on newline, dropping empty entries.
Embeds both `npmPath.split('\n').filter((f) => f)` (index.js line 173) and
the shell's word splitting of a newline-separated id list interpolated into
a command line (index.js line 57). -/
def linesOf (s : String) : List String :=
  ((splitChar '\n' s.toList).map (fun l => String.mk l)).filter (fun x => !(x == ""))

/-- Helper for `jsUniq`, accumulating the elements already seen. -/
def uniqAux (seen : List String) : List String → List String
  | [] => []
  | x :: xs => if seen.contains x then uniqAux seen xs else x :: uniqAux (x :: seen) xs

/-- Embeds lodash `_.uniq` (index.js line 173): keep the first occurrence of
each element, preserving order. -/
def jsUniq (l : List String) : List String := uniqAux [] l

/-- If `pat` is a prefix of `s`, return the remainder of `s`. -/
def stripPrefixChars : List Char → List Char → Option (List Char)
  | [], s => some s
  | _ :: _, [] => none
  | p :: ps, c :: cs => if p = c then stripPrefixChars ps cs else none

/-- Fuel-indexed worker for `splitOnStr`; the fuel is an upper bound on the
length of the remaining input, so the fuel-exhausted branch is unreachable
for a non-empty pattern. -/
def splitSubGo (pat : List Char) : Nat → List Char → List Char → List (List Char)
  | 0, acc, _ => [acc.reverse]
  | fuel + 1, acc, s =>
    match stripPrefixChars pat s with
    | some rest => acc.reverse :: splitSubGo pat fuel [] rest
    | none =>
      match s with
      | [] => [acc.reverse]
      | c :: cs => splitSubGo pat fuel (c :: acc) cs

/-- Embeds JavaScript `s.split(pat)` for a non-empty literal pattern `pat`. -/
def splitOnStr (pat s : String) : List String :=
  (splitSubGo pat.toList s.toList.length [] s.toList).map (fun l => String.mk l)

/-- JavaScript string truthiness, as used in `if (containerID)`
(index.js line 56) and `if (list)` (index.js line 110): any non-empty
string is truthy, including whitespace-only strings. -/
def jsTruthy (s : String) : Bool := !(s == "")

/-- One step of Node `path.posix.normalize` component processing: drop empty
and `.` components, resolve `..` against the accumulated (reversed) prefix. -/
def pathPart (absolute : Bool) (acc : List String) (part : String) : List String :=
  if part = "" then acc
  else if part = "." then acc
  else if part = ".." then
    match acc with
    | [] => if absolute then [] else [".."]
    | a :: rest => if a = ".." then ".." :: a :: rest else rest
  else part :: acc

/-- Node `path.posix.normalize`: collapse repeated slashes, resolve `.` and
`..`, preserve a leading slash (absolute path) and a trailing slash. -/
def posixNormalize (p : String) : String :=
  if p = "" then "."
  else
    let absolute := strStartsWith p "/"
    let trailing := strEndsWith p "/"
    let parts := ((splitChar '/' p.toList).map (fun l => String.mk l)).foldl
      (pathPart absolute) []
    let body := joinSep "/" parts.reverse
    if body = "" then
      if absolute then "/" else if trailing then "./" else "."
    else
      let withTrail := if trailing then body ++ "/" else body
      if absolute then "/" ++ withTrail else withTrail

/-- Node `path.posix.join`: join the non-empty segments with a slash and
normalize the result; the join of nothing is `.`. -/
def posixJoin (parts : List String) : String :=
  let joined := joinSep "/" (parts.filter (fun p => !(p == "")))
  if joined = "" then "." else posixNormalize joined

/-- The fixed base image tag (index.js line 9). -/
def BASE_VERSION : String := "toolchain"

/-- The docker hub repository name (index.js line 10). -/
def DOCKER_HUB_NAME : String := "anacierdem/libdragon"

/-- The build-time switch for pushing the latest tag (index.js line 11). -/
def UPDATE_LATEST : Bool := true

/-- Process-wide configuration (index.js lines 14-24). -/
structure Options where
  PROJECT_NAME : String
  BYTE_SWAP : Bool
  MOUNT_PATH : String
  IS_CI : Bool
  SELF_BUILD : Bool
deriving DecidableEq

/-- Embeds `options.SELF_BUILD = options.PROJECT_NAME === 'libdragon'
? options.IS_CI : false` (index.js lines 23-24). -/
def selfBuildOf (projectName : String) (isCIFlag : Bool) : Bool :=
  if projectName = "libdragon" then isCIFlag else false

/-- Embeds `process.env.npm_package_name || 'libdragon'` (index.js line 15):
an unset or empty (falsy) variable yields the default name. -/
def projectNameOf (npmPackageName : Option String) : String :=
  match npmPackageName with
  | none => "libdragon"
  | some s => if s = "" then "libdragon" else s

/-- The options value resolved at startup (index.js lines 14-24), from the
`npm_package_name` and `CI` environment variables and the working
directory. -/
def optionsInit (npmPackageName : Option String) (ciEnv : String) (cwd : String) : Options :=
  { PROJECT_NAME := projectNameOf npmPackageName
  , BYTE_SWAP := false
  , MOUNT_PATH := cwd
  , IS_CI := ciEnv == "true"
  , SELF_BUILD := selfBuildOf (projectNameOf npmPackageName) (ciEnv == "true") }

/-- A concrete options value used by witnesses: defaults with no
environment overrides. -/
def defaultOptions : Options := optionsInit none "" "/cwd"

/-- Models Node `path.relative(MOUNT_PATH, p)` for a host path `p` strictly
under the mount path whose relative part has components `cs`: the
components joined by the host path separator. -/
def hostRelative (sep : Char) (cs : List String) : String :=
  joinSep (String.mk [sep]) cs

/-- Embeds the `relativePath` computation of `install` (index.js
lines 194-196): the relative host path with (only) the first host
separator replaced by a forward slash. -/
def relativePathOf (sep : Char) (cs : List String) : String :=
  jsReplaceFirst (hostRelative sep cs) sep '/'

/-- Embeds the `containerPath` computation of `install` (index.js
lines 197-202): `path.posix.join('/', PROJECT_NAME, relativePath, '/')`. -/
def containerPathOf (sep : Char) (projectName : String) (cs : List String) : String :=
  posixJoin ["/", projectName, relativePathOf sep cs, "/"]

/-- Embeds the `makePath` computation of `install` (index.js line 203). -/
def makePathOf (sep : Char) (projectName : String) (cs : List String) : String :=
  posixJoin [containerPathOf sep projectName cs, "Makefile"]

/-- A container in the engine's store: id, name, running flag. -/
structure Container where
  cid : String
  name : String
  running : Bool
deriving DecidableEq

/-- The container engine's store of containers. -/
abbrev Store := List Container

/-- Number of containers in the store bearing the given name. -/
def countNamed (s : Store) (n : String) : Nat :=
  (s.filter (fun c => c.name == n)).length

/-- Ids of the containers bearing the given name, in store order. -/
def lsIds (s : Store) (n : String) : List String :=
  (s.filter (fun c => c.name == n)).map (fun c => c.cid)

/-- Textual output of a name-filtered listing (`docker container ls -qa -f
name=...` or `docker ps -a -q -f name=...`): one id per line, each line
terminated by a newline; empty when there is no match. -/
def lsOutput (s : Store) (n : String) : String :=
  concatAll ((lsIds s n).map (fun i => i ++ "\n"))

/-- A well-formed container id: non-empty and free of newlines (real engine
ids are hexadecimal strings). -/
def validCid (i : String) : Bool := decide (i ≠ "" ∧ '\n' ∉ i.toList)

/-- A well-formed store: every container id is well-formed. -/
def wellFormed (s : Store) : Bool := s.all (fun c => validCid c.cid)

/-- The engine's deterministically chosen id for a newly created container
(model choice; the claims do not depend on the id values). -/
def freshCid (s : Store) : String := String.mk ('c' :: List.replicate s.length 'x')

/-- The external commands the program issues, carrying exactly the data
interpolated into each command string in the source. -/
inductive Cmd where
  | containerLs (name : String)
  | containerRm (idText : String)
  | dockerRun (name : String) (byteSwap : Bool) (mountPath : String) (image : String)
  | localMake (param : String)
  | dockerStart (name : String)
  | dockerExecMake (name : String) (param : String)
  | dockerPull (image : String)
  | psList (name : String)
  | dockerRmName (name : String)
  | dockerBuild (tag : String) (file : String)
  | dockerPush (image : String)
  | dockerTag (src : String) (dst : String)
deriving DecidableEq

/-- The result of the engine executing one command: the new store, the
command's standard output, and whether it exited successfully. -/
structure EngineResult where
  store : Store
  output : String
  ok : Bool
deriving DecidableEq

/-- The container engine's documented behaviour for each command the
program issues.  `containerRm` removes every listed id and fails if the
list is empty or some id is absent; `dockerRun` fails if the name is
taken, otherwise creates a running container; `dockerStart` fails on an
absent name; `exec` requires a running container; `dockerRmName` fails on
an absent name; image commands always succeed and do not touch the
container store. -/
def engineStep (s : Store) : Cmd → EngineResult
  | .containerLs n => ⟨s, lsOutput s n, true⟩
  | .psList n => ⟨s, lsOutput s n, true⟩
  | .containerRm idText =>
    let ids := linesOf idText
    ⟨s.filter (fun c => !(ids.contains c.cid)), "",
      !ids.isEmpty && ids.all (fun i => s.any (fun c => c.cid == i))⟩
  | .dockerRun n _ _ _ =>
    if s.any (fun c => c.name == n) then ⟨s, "", false⟩
    else ⟨{ cid := freshCid s, name := n, running := true } :: s, "", true⟩
  | .dockerStart n =>
    if s.any (fun c => c.name == n) then
      ⟨s.map (fun c => if c.name == n then { c with running := true } else c), "", true⟩
    else ⟨s, "", false⟩
  | .dockerExecMake n _ =>
    ⟨s, "", s.any (fun c => c.name == n && c.running)⟩
  | .dockerRmName n =>
    if s.any (fun c => c.name == n) then
      ⟨s.filter (fun c => !(c.name == n)), "", true⟩
    else ⟨s, "", false⟩
  | .localMake _ => ⟨s, "", true⟩
  | .dockerPull _ => ⟨s, "", true⟩
  | .dockerBuild _ _ => ⟨s, "", true⟩
  | .dockerPush _ => ⟨s, "", true⟩
  | .dockerTag _ _ => ⟨s, "", true⟩

/-- Execution state of one CLI action: the engine store, the trace of
commands issued so far, and whether every awaited command succeeded. -/
structure Outcome where
  store : Store
  trace : List Cmd
  ok : Bool
deriving DecidableEq

/-- Embeds `await runCommand(...)`: if a previous command already failed the
rejection has propagated and the command is never issued; otherwise the
command is issued (recorded in the trace) and its output returned, a
failure marking the whole operation rejected. -/
def issue (o : Outcome) (c : Cmd) : Outcome × String :=
  if o.ok then
    let r := engineStep o.store c
    (⟨r.store, o.trace ++ [c], r.ok⟩, r.output)
  else (o, "")

/-- The image tag chosen by `startToolchain` (index.js lines 72-75). -/
def chosenImage (opts : Options) (version : String) (forceLatest : Bool) : String :=
  DOCKER_HUB_NAME ++ ":" ++
    (if !forceLatest && opts.SELF_BUILD then BASE_VERSION else version)

/-- Embeds `startToolchain` (index.js lines 46-77): return immediately
inside a container; list containers by the reserved name; if the (truthy)
listing output is non-empty, force-remove the listed ids; then run a fresh
detached container with the chosen image tag. -/
def startToolchain (isDocker : String) (opts : Options) (version : String)
    (forceLatest : Bool) (o : Outcome) : Outcome :=
  if isDocker = "true" then o
  else
    let p := issue o (Cmd.containerLs opts.PROJECT_NAME)
    let o2 := if jsTruthy p.2 then (issue p.1 (Cmd.containerRm p.2)).1 else p.1
    (issue o2 (Cmd.dockerRun opts.PROJECT_NAME opts.BYTE_SWAP opts.MOUNT_PATH
      (DOCKER_HUB_NAME ++ ":" ++
        (if !forceLatest && opts.SELF_BUILD then BASE_VERSION else version)))).1

/-- Embeds `make` (index.js lines 79-87): run make locally inside a
container; otherwise `docker start` the named container, then `docker
exec` make in it. -/
def make (isDocker : String) (opts : Options) (param : String) (o : Outcome) : Outcome :=
  if isDocker = "true" then (issue o (Cmd.localMake param)).1
  else
    let o1 := (issue o (Cmd.dockerStart opts.PROJECT_NAME)).1
    (issue o1 (Cmd.dockerExecMake opts.PROJECT_NAME param)).1

/-- Embeds `download` (index.js lines 89-100): return immediately inside a
container; pull the base image, and the versioned image unless
self-building. -/
def download (isDocker : String) (opts : Options) (version : String) (o : Outcome) : Outcome :=
  if isDocker = "true" then o
  else
    let o1 := (issue o (Cmd.dockerPull (DOCKER_HUB_NAME ++ ":" ++ BASE_VERSION))).1
    if opts.SELF_BUILD then o1
    else (issue o1 (Cmd.dockerPull (DOCKER_HUB_NAME ++ ":" ++ version))).1

/-- Embeds `stop` (index.js lines 102-113): return immediately inside a
container; list containers by the reserved name; if the (truthy) listing
output is non-empty, force-remove by name. -/
def stop (isDocker : String) (opts : Options) (o : Outcome) : Outcome :=
  if isDocker = "true" then o
  else
    let p := issue o (Cmd.psList opts.PROJECT_NAME)
    if jsTruthy p.2 then (issue p.1 (Cmd.dockerRmName opts.PROJECT_NAME)).1 else p.1

/-- Embeds `buildDragon` (index.js lines 115-130): build the versioned
image, then start the freshly built image (forcing the version tag). -/
def buildDragon (isDocker : String) (opts : Options) (version : String) (o : Outcome) : Outcome :=
  let o1 := (issue o (Cmd.dockerBuild (DOCKER_HUB_NAME ++ ":" ++ version)
    "./dragon.Dockerfile")).1
  startToolchain isDocker opts version true o1

/-- Embeds the `init` action (index.js lines 135-148): return immediately
inside a container; build the base image, then build and start the
versioned image. -/
def initAction (isDocker : String) (opts : Options) (version : String) (o : Outcome) : Outcome :=
  if isDocker = "true" then o
  else
    let o1 := (issue o (Cmd.dockerBuild (DOCKER_HUB_NAME ++ ":" ++ BASE_VERSION) "./")).1
    buildDragon isDocker opts version o1

/-- Embeds the `update` action (index.js lines 242-263): return immediately
inside a container; stop the container, push the versioned image and,
when the latest switch is on, tag and push latest. -/
def update (isDocker : String) (opts : Options) (version : String) (o : Outcome) : Outcome :=
  if isDocker = "true" then o
  else
    let o1 := stop isDocker opts o
    let o2 := (issue o1 (Cmd.dockerPush (DOCKER_HUB_NAME ++ ":" ++ version))).1
    if UPDATE_LATEST then
      let o3 := (issue o2 (Cmd.dockerTag (DOCKER_HUB_NAME ++ ":" ++ version)
        (DOCKER_HUB_NAME ++ ":latest"))).1
      (issue o3 (Cmd.dockerPush (DOCKER_HUB_NAME ++ ":latest"))).1
    else o2

/-- The lifecycle operations of the program, one constructor per action
that touches the container engine. -/
inductive LifecycleOp where
  | startOp (forceLatest : Bool)
  | stopOp
  | downloadOp
  | makeOp (param : String)
  | initOp
  | buildDragonOp
  | updateOp
deriving DecidableEq

/-- Run one lifecycle operation from a given engine store, starting a fresh
execution (empty trace, no prior failure), as the dispatcher does. -/
def runOp (isDocker : String) (opts : Options) (version : String)
    (op : LifecycleOp) (s : Store) : Outcome :=
  match op with
  | .startOp fl => startToolchain isDocker opts version fl ⟨s, [], true⟩
  | .stopOp => stop isDocker opts ⟨s, [], true⟩
  | .downloadOp => download isDocker opts version ⟨s, [], true⟩
  | .makeOp p => make isDocker opts p ⟨s, [], true⟩
  | .initOp => initAction isDocker opts version ⟨s, [], true⟩
  | .buildDragonOp => buildDragon isDocker opts version ⟨s, [], true⟩
  | .updateOp => update isDocker opts version ⟨s, [], true⟩

/-- The ambiguity rejection reason (index.js line 182). -/
def AMBIGUOUS_MSG : String :=
  "Using same dependency with different versions is not supported!"

/-- Embeds `_.uniq(npmPath.split('\n').filter((f) => f))` (index.js
line 173): the deduplicated non-empty lines of the npm listing output. -/
def resolvePaths (npmOut : String) : List String := jsUniq (linesOf npmOut)

/-- One dependency of the invoking project, with the outcomes of the
external probes `install` makes for it: the output of `npm ls`, whether a
Makefile exists at its (first) resolved path, and whether its
`make && make install` run succeeds. -/
structure Dep where
  name : String
  npmOut : String
  hasMakefile : Bool
  makeOk : Bool
deriving DecidableEq

/-- Embeds the per-dependency branch of `install` (index.js lines 178-235):
more than one distinct resolved path rejects with the ambiguity reason;
an empty resolution makes the path join throw; a missing Makefile is
silently skipped; otherwise the result is that of the make run. -/
def processDep (d : Dep) : Except String Unit :=
  let paths := resolvePaths d.npmOut
  if 1 < paths.length then Except.error AMBIGUOUS_MSG
  else
    match paths with
    | [] => Except.error "TypeError"
    | _ :: _ =>
      if d.hasMakefile then
        if d.makeOk then Except.ok () else Except.error "make failed"
      else Except.ok ()

/-- Embeds the `Promise.all` over the dependencies (index.js lines 178-236):
the install phase is rejected exactly when some dependency's branch is
rejected (modelled with the first rejection in list order). -/
def installDeps (deps : List Dep) : Except String Unit :=
  match deps.findSome? (fun d =>
      match processDep d with
      | .error e => some e
      | .ok _ => none) with
  | some e => Except.error e
  | none => Except.ok ()

/-- The own keys of the `availableActions` object literal (index.js
lines 132-264). -/
def actionNames : List String :=
  ["start", "download", "init", "install", "make", "stop", "buildDragon", "update"]

/-- The function-valued properties `availableActions[val]` finds through the
prototype chain when `val` names no own key: the standard `Object.prototype`
methods plus the legacy accessor-definition functions.  Each passes the
`typeof functionToRun === 'function'` test, is invoked, and returns a
non-promise value (or throws), so the chained `.then(...)` access throws an
uncaught TypeError that terminates the process.  The inherited `__proto__`
accessor yields an object, not a function, so it falls into the
silently-ignored case instead. -/
def protoActionNames : List String :=
  ["constructor", "hasOwnProperty", "isPrototypeOf", "propertyIsEnumerable",
    "toLocaleString", "toString", "valueOf",
    "__defineGetter__", "__defineSetter__", "__lookupGetter__", "__lookupSetter__"]

/-- State threaded through the `process.argv.forEach` dispatcher: the
mutable options, the mapped actions invoked so far with their joined
parameter strings, and whether the process has terminated — by the
`process.exit(0)` of `--help` or by the uncaught TypeError thrown after
invoking a function inherited from `Object.prototype`. -/
structure DispState where
  opts : Options
  invocations : List (String × String)
  halted : Bool
deriving DecidableEq

/-- Embeds `val.split('--mount-path=')[1]` (index.js line 274). -/
def mountPathValue (val : String) : String :=
  (splitOnStr "--mount-path=" val).getD 1 ""

/-- Embeds the `--mount-path` flag handler (index.js lines 271-277):
`options.MOUNT_PATH = path.join(process.cwd(), val.split('--mount-path=')[1])`. -/
def handleMountPath (cwd val : String) : String :=
  posixJoin [cwd, mountPathValue val]

/-- Modelled from the claim's words, for comparison with the code: the
mount path P resolved against the working directory when relative, and P
itself when absolute. -/
def specMountPath (cwd p : String) : String :=
  if strStartsWith p "/" then p else posixJoin [cwd, p]

/-- One iteration of the dispatcher (index.js lines 266-306): after the
process has terminated nothing runs; index 0 is skipped; the two option
flags mutate the options; `--help` exits the process; the
`availableActions[val]` lookup then finds either an own key — the mapped
action is invoked with the space-joined remaining arguments — or a
function inherited from `Object.prototype`, whose invocation ends in an
uncaught TypeError that terminates the process; anything else is silently
ignored (`typeof functionToRun === 'function'` fails). -/
def dispatchStep (cwd : String) (index : Nat) (val : String) (rest : List String)
    (st : DispState) : DispState :=
  if st.halted then st
  else if index < 1 then st
  else if strStartsWith val "--mount-path=" then
    { st with opts := { st.opts with MOUNT_PATH := handleMountPath cwd val } }
  else if val = "--byte-swap" then
    { st with opts := { st.opts with BYTE_SWAP := true } }
  else if val = "--help" then
    { st with halted := true }
  else if actionNames.contains val then
    { st with invocations := st.invocations ++ [(val, joinSep " " rest)] }
  else if protoActionNames.contains val then
    { st with halted := true }
  else st

/-- The dispatcher loop over the argument vector, tracking the current
index; the remaining list at each step is exactly
`process.argv.slice(index + 1)`. -/
def dispatchGo (cwd : String) : Nat → List String → DispState → DispState
  | _, [], st => st
  | index, val :: rest, st =>
    dispatchGo cwd (index + 1) rest (dispatchStep cwd index val rest st)

/-- Embeds `process.argv.forEach(...)` (index.js lines 266-306). -/
def dispatch (cwd : String) (argv : List String) (opts : Options) : DispState :=
  dispatchGo cwd 0 argv { opts := opts, invocations := [], halted := false }

/-! ### Helper lemmas about strings and listing output -/

theorem toListAppend (a b : String) : (a ++ b).toList = a.toList ++ b.toList := by
  cases a
  cases b
  rfl

theorem mkToList (s : String) : String.mk s.toList = s := by
  cases s
  rfl

theorem stringEqEmptyIff (s : String) : s = "" ↔ s.toList = [] := by
  constructor
  · intro h
    subst h
    rfl
  · intro h
    cases s with
    | mk d =>
      have hd : d = [] := h
      subst hd
      rfl

theorem concatIdsEqEmptyIff (l : List String) :
    concatAll (l.map (fun i => i ++ "\n")) = "" ↔ l = [] := by
  cases l with
  | nil => simp [concatAll]
  | cons i t =>
    simp only [List.map_cons, concatAll]
    constructor
    · intro h
      have h2 := congrArg String.toList h
      rw [toListAppend, toListAppend] at h2
      simp at h2
    · intro h
      cases h

theorem splitCharAppendSep (sep : Char) (xs ys : List Char) (h : sep ∉ xs) :
    splitChar sep (xs ++ sep :: ys) = xs :: splitChar sep ys := by
  induction xs with
  | nil => simp [splitChar]
  | cons x xt ih =>
    have hx : ¬(x = sep) := by
      intro he
      subst he
      exact h (List.mem_cons_self _ _)
    have hxt : sep ∉ xt := fun hm => h (List.mem_cons_of_mem _ hm)
    show splitChar sep (x :: (xt ++ sep :: ys)) = (x :: xt) :: splitChar sep ys
    rw [splitChar, if_neg hx, ih hxt]

theorem validCidIff (i : String) : validCid i = true ↔ (i ≠ "" ∧ '\n' ∉ i.toList) := by
  simp [validCid]

theorem linesOfConcat (l : List String) (h : ∀ i ∈ l, validCid i = true) :
    linesOf (concatAll (l.map (fun i => i ++ "\n"))) = l := by
  induction l with
  | nil => decide
  | cons i t ih =>
    have hv := (validCidIff i).mp (h i (List.mem_cons_self i t))
    have ht : ∀ j ∈ t, validCid j = true := fun j hj => h j (List.mem_cons_of_mem i hj)
    have hchars : ((i ++ "\n") ++ concatAll (t.map (fun x => x ++ "\n"))).toList
        = i.toList ++ '\n' :: (concatAll (t.map (fun x => x ++ "\n"))).toList := by
      rw [toListAppend, toListAppend]
      simp
    simp only [List.map_cons, concatAll, linesOf, hchars]
    rw [splitCharAppendSep _ _ _ hv.2]
    simp only [List.map_cons, List.filter_cons, mkToList]
    have hne : (!(i == "")) = true := by
      simp [hv.1]
    rw [if_pos hne]
    show i :: linesOf (concatAll (t.map (fun x => x ++ "\n"))) = i :: t
    rw [ih ht]

/-! ### Helper lemmas about the store -/

theorem wellFormedIff (s : Store) : wellFormed s = true ↔ ∀ c ∈ s, validCid c.cid = true := by
  simp [wellFormed, List.all_eq_true]

theorem countNamedEqZeroIff (s : Store) (n : String) :
    countNamed s n = 0 ↔ ∀ c ∈ s, c.name ≠ n := by
  simp [countNamed, List.length_eq_zero, List.filter_eq_nil_iff]

theorem lsIdsNilIff (s : Store) (n : String) : lsIds s n = [] ↔ countNamed s n = 0 := by
  simp [lsIds, countNamed, List.length_eq_zero]

theorem lsOutputEqEmptyIff (s : Store) (n : String) :
    lsOutput s n = "" ↔ countNamed s n = 0 := by
  rw [lsOutput, concatIdsEqEmptyIff, lsIdsNilIff]

theorem lsIdsValid (s : Store) (n : String) (hwf : wellFormed s = true) :
    ∀ i ∈ lsIds s n, validCid i = true := by
  intro i hi
  rcases List.mem_map.mp hi with ⟨c, hc, rfl⟩
  exact (wellFormedIff s).mp hwf c (List.mem_of_mem_filter hc)

theorem linesOfLsOutput (s : Store) (n : String) (hwf : wellFormed s = true) :
    linesOf (lsOutput s n) = lsIds s n := by
  rw [lsOutput]
  exact linesOfConcat _ (lsIdsValid s n hwf)

theorem anyNamedIff (s : Store) (n : String) :
    s.any (fun c => c.name == n) = true ↔ ∃ c ∈ s, c.name = n := by
  simp [List.any_eq_true]

theorem anyNamedFalse (s : Store) (n : String) (h : countNamed s n = 0) :
    s.any (fun c => c.name == n) = false := by
  rw [Bool.eq_false_iff]
  intro hc
  rcases (anyNamedIff s n).mp hc with ⟨c, hcs, hn⟩
  exact (countNamedEqZeroIff s n).mp h c hcs hn

theorem countNamedSublist {s1 s2 : Store} (h : s1.Sublist s2) (n : String) :
    countNamed s1 n ≤ countNamed s2 n :=
  (h.filter _).length_le

theorem lsIdsMem (s : Store) (n : String) (c : Container) (hc : c ∈ s)
    (hn : c.name = n) : c.cid ∈ lsIds s n := by
  rw [lsIds]
  exact List.mem_map_of_mem _ (List.mem_filter.mpr ⟨hc, by simp [hn]⟩)

theorem lsIdsContains (s : Store) (n : String) (c : Container) (hc : c ∈ s)
    (hn : c.name = n) : (lsIds s n).contains c.cid = true :=
  List.elem_iff.mpr (lsIdsMem s n c hc hn)

theorem lsIdsPresent (s : Store) (n : String) :
    ∀ i ∈ lsIds s n, s.any (fun c => c.cid == i) = true := by
  intro i hi
  rcases List.mem_map.mp hi with ⟨c, hc, rfl⟩
  exact List.any_eq_true.mpr ⟨c, List.mem_of_mem_filter hc, by simp⟩

theorem countNamedRmZero (s : Store) (n : String) (ids : List String)
    (h : ∀ c ∈ s, c.name = n → ids.contains c.cid = true) :
    countNamed (s.filter (fun c => !(ids.contains c.cid))) n = 0 := by
  rw [countNamedEqZeroIff]
  intro c hc hname
  rcases List.mem_filter.mp hc with ⟨hcs, hpc⟩
  rw [h c hcs hname] at hpc
  simp at hpc

theorem validCidFreshCid (s : Store) : validCid (freshCid s) = true := by
  rw [validCidIff, freshCid]
  constructor
  · intro h
    have h2 := congrArg String.toList h
    simp at h2
  · intro h
    rcases List.mem_cons.mp h with h | h
    · cases h
    · exact absurd (List.eq_of_mem_replicate h) (by decide)

theorem wellFormedFilter (s : Store) (p : Container → Bool) (h : wellFormed s = true) :
    wellFormed (s.filter p) = true := by
  rw [wellFormedIff] at h ⊢
  exact fun c hc => h c (List.mem_of_mem_filter hc)

theorem countNamedConsNamed (c : Container) (s : Store) (n : String) (h : c.name = n) :
    countNamed (c :: s) n = countNamed s n + 1 := by
  simp [countNamed, List.filter_cons, h]

theorem countNamedMapOfName (s : Store) (m : String) (f : Container → Container)
    (hf : ∀ c, (f c).name = c.name) :
    countNamed (s.map f) m = countNamed s m := by
  induction s with
  | nil => rfl
  | cons c t ih =>
    simp only [countNamed] at ih ⊢
    simp only [List.map_cons, List.filter_cons, hf]
    by_cases h : (c.name == m) = true
    · simp [h, ih]
    · simp [h, ih]

/-! ### Helper lemmas about command issuing and the lifecycle operations -/

theorem issueTrace (o : Outcome) (c : Cmd) (hok : o.ok = true) :
    ((issue o c).1).trace = o.trace ++ [c] := by
  rw [issue, if_pos hok]

theorem issueTraceMono (o : Outcome) (c c2 : Cmd) (h : c ∈ o.trace) :
    c ∈ ((issue o c2).1).trace := by
  rw [issue]
  split
  · exact List.mem_append_left _ h
  · exact h

theorem issueStorePush (o : Outcome) (img : String) :
    ((issue o (Cmd.dockerPush img)).1).store = o.store := by
  rw [issue]
  split <;> rfl

theorem issueStoreTag (o : Outcome) (src dst : String) :
    ((issue o (Cmd.dockerTag src dst)).1).store = o.store := by
  rw [issue]
  split <;> rfl

theorem issueStorePull (o : Outcome) (img : String) :
    ((issue o (Cmd.dockerPull img)).1).store = o.store := by
  rw [issue]
  split <;> rfl

theorem issueStoreLocalMake (o : Outcome) (p : String) :
    ((issue o (Cmd.localMake p)).1).store = o.store := by
  rw [issue]
  split <;> rfl

theorem issueStoreExecMake (o : Outcome) (n p : String) :
    ((issue o (Cmd.dockerExecMake n p)).1).store = o.store := by
  rw [issue]
  split <;> rfl

theorem issueBuild (o : Outcome) (t f : String) (hok : o.ok = true) :
    (issue o (Cmd.dockerBuild t f)).1 = ⟨o.store, o.trace ++ [Cmd.dockerBuild t f], true⟩ := by
  rw [issue, if_pos hok]
  rfl

theorem issueNotOk (o : Outcome) (c : Cmd) (hok : o.ok = false) :
    issue o c = (o, "") := by
  rw [issue, if_neg]
  rw [hok]
  exact Bool.false_ne_true
theorem jsTruthyIff (s : String) : jsTruthy s = true ↔ s ≠ "" := by
  simp [jsTruthy]

theorem jsTruthyLsOutput (s : Store) (n : String) :
    jsTruthy (lsOutput s n) = true ↔ countNamed s n ≠ 0 := by
  rw [jsTruthyIff]
  exact not_congr (lsOutputEqEmptyIff s n)

theorem startToolchainNotOk (isDocker : String) (opts : Options) (version : String)
    (fl : Bool) (o : Outcome) (hok : o.ok = false) :
    startToolchain isDocker opts version fl o = o := by
  obtain ⟨s, tr, k⟩ := o
  have hk : k = false := hok
  subst hk
  unfold startToolchain
  split
  · rfl
  · rfl

theorem startToolchainAbsent (isDocker : String) (opts : Options) (version : String)
    (fl : Bool) (s : Store) (tr : List Cmd) (hd : isDocker ≠ "true")
    (hz : countNamed s opts.PROJECT_NAME = 0) :
    startToolchain isDocker opts version fl ⟨s, tr, true⟩ =
      ⟨{ cid := freshCid s, name := opts.PROJECT_NAME, running := true } :: s,
        tr ++ [Cmd.containerLs opts.PROJECT_NAME,
          Cmd.dockerRun opts.PROJECT_NAME opts.BYTE_SWAP opts.MOUNT_PATH
            (chosenImage opts version fl)], true⟩ := by
  have hout : lsOutput s opts.PROJECT_NAME = "" := (lsOutputEqEmptyIff _ _).mpr hz
  have hany : s.any (fun c => c.name == opts.PROJECT_NAME) = false := anyNamedFalse _ _ hz
  unfold startToolchain
  rw [if_neg hd]
  simp [issue, engineStep, hout, hany, jsTruthy, chosenImage]

theorem startToolchainPresent (isDocker : String) (opts : Options) (version : String)
    (fl : Bool) (s : Store) (tr : List Cmd) (hd : isDocker ≠ "true")
    (hnz : countNamed s opts.PROJECT_NAME ≠ 0) (hwf : wellFormed s = true) :
    startToolchain isDocker opts version fl ⟨s, tr, true⟩ =
      ⟨{ cid := freshCid (s.filter (fun c => !((lsIds s opts.PROJECT_NAME).contains c.cid))),
          name := opts.PROJECT_NAME, running := true }
          :: s.filter (fun c => !((lsIds s opts.PROJECT_NAME).contains c.cid)),
        tr ++ [Cmd.containerLs opts.PROJECT_NAME,
          Cmd.containerRm (lsOutput s opts.PROJECT_NAME),
          Cmd.dockerRun opts.PROJECT_NAME opts.BYTE_SWAP opts.MOUNT_PATH
            (chosenImage opts version fl)], true⟩ := by
  have hout : lsOutput s opts.PROJECT_NAME ≠ "" := fun h => hnz ((lsOutputEqEmptyIff _ _).mp h)
  have hids := linesOfLsOutput s opts.PROJECT_NAME hwf
  have hne : lsIds s opts.PROJECT_NAME ≠ [] := fun h => hnz ((lsIdsNilIff _ _).mp h)
  have hemp : (lsIds s opts.PROJECT_NAME).isEmpty = false := by
    rw [Bool.eq_false_iff]
    intro h
    exact hne (List.isEmpty_iff.mp h)
  have hall : (lsIds s opts.PROJECT_NAME).all (fun i => s.any (fun c => c.cid == i)) = true :=
    List.all_eq_true.mpr (lsIdsPresent s opts.PROJECT_NAME)
  have hno : ¬∃ x ∈ s, x.cid ∉ lsIds s opts.PROJECT_NAME ∧ x.name = opts.PROJECT_NAME := by
    rintro ⟨x, hx, hni, hnm⟩
    exact hni (lsIdsMem s opts.PROJECT_NAME x hx hnm)
  unfold startToolchain
  rw [if_neg hd]
  simp [issue, engineStep, jsTruthy, hout, hids, hemp, hall, hno, chosenImage]

theorem startToolchainCount (isDocker : String) (opts : Options) (version : String)
    (fl : Bool) (s : Store) (tr : List Cmd) (hd : isDocker ≠ "true")
    (hwf : wellFormed s = true) :
    countNamed (startToolchain isDocker opts version fl ⟨s, tr, true⟩).store
      opts.PROJECT_NAME = 1
    ∧ wellFormed (startToolchain isDocker opts version fl ⟨s, tr, true⟩).store = true := by
  by_cases hz : countNamed s opts.PROJECT_NAME = 0
  · rw [startToolchainAbsent isDocker opts version fl s tr hd hz]
    constructor
    · show countNamed (_ :: s) opts.PROJECT_NAME = 1
      rw [countNamedConsNamed _ _ _ rfl, hz]
    · rw [wellFormedIff]
      intro c hc
      rcases List.mem_cons.mp hc with h | h
      · subst h
        exact validCidFreshCid s
      · exact (wellFormedIff s).mp hwf c h
  · rw [startToolchainPresent isDocker opts version fl s tr hd hz hwf]
    constructor
    · show countNamed (_ :: _) opts.PROJECT_NAME = 1
      rw [countNamedConsNamed _ _ _ rfl,
        countNamedRmZero s _ _ (fun c hc hn => lsIdsContains s _ c hc hn)]
    · rw [wellFormedIff]
      intro c hc
      rcases List.mem_cons.mp hc with h | h
      · subst h
        exact validCidFreshCid _
      · exact (wellFormedIff _).mp (wellFormedFilter s _ hwf) c h

theorem stopInDocker (isDocker : String) (opts : Options) (o : Outcome)
    (hd : isDocker = "true") : stop isDocker opts o = o := by
  unfold stop
  rw [if_pos hd]

theorem stopNotOk (isDocker : String) (opts : Options) (s : Store) (tr : List Cmd) :
    stop isDocker opts ⟨s, tr, false⟩ = ⟨s, tr, false⟩ := by
  unfold stop
  split
  · rfl
  · rfl

theorem stopAbsent (isDocker : String) (opts : Options) (s : Store) (tr : List Cmd)
    (hd : isDocker ≠ "true") (hz : countNamed s opts.PROJECT_NAME = 0) :
    stop isDocker opts ⟨s, tr, true⟩ = ⟨s, tr ++ [Cmd.psList opts.PROJECT_NAME], true⟩ := by
  have hout : lsOutput s opts.PROJECT_NAME = "" := (lsOutputEqEmptyIff _ _).mpr hz
  unfold stop
  rw [if_neg hd]
  simp [issue, engineStep, hout, jsTruthy]

theorem stopPresent (isDocker : String) (opts : Options) (s : Store) (tr : List Cmd)
    (hd : isDocker ≠ "true") (hnz : countNamed s opts.PROJECT_NAME ≠ 0) :
    stop isDocker opts ⟨s, tr, true⟩ =
      ⟨s.filter (fun c => !(c.name == opts.PROJECT_NAME)),
        tr ++ [Cmd.psList opts.PROJECT_NAME, Cmd.dockerRmName opts.PROJECT_NAME], true⟩ := by
  have hout : lsOutput s opts.PROJECT_NAME ≠ "" := fun h => hnz ((lsOutputEqEmptyIff _ _).mp h)
  have hany : s.any (fun c => c.name == opts.PROJECT_NAME) = true := by
    rw [anyNamedIff]
    by_contra hno
    push_neg at hno
    exact hnz ((countNamedEqZeroIff _ _).mpr hno)
  unfold stop
  rw [if_neg hd]
  simp [issue, engineStep, jsTruthy, hout, hany]

theorem stopCountLe (isDocker : String) (opts : Options) (o : Outcome) (n : String) :
    countNamed (stop isDocker opts o).store n ≤ countNamed o.store n := by
  obtain ⟨s, tr, k⟩ := o
  by_cases hd : isDocker = "true"
  · rw [stopInDocker isDocker opts _ hd]
  · cases k with
    | false => rw [stopNotOk]
    | true =>
      by_cases hz : countNamed s opts.PROJECT_NAME = 0
      · rw [stopAbsent isDocker opts s tr hd hz]
      · rw [stopPresent isDocker opts s tr hd hz]
        exact countNamedSublist (List.filter_sublist s) n

theorem downloadStore (isDocker : String) (opts : Options) (version : String) (o : Outcome) :
    (download isDocker opts version o).store = o.store := by
  unfold download
  split
  · rfl
  · split
    · exact issueStorePull o _
    · rw [issueStorePull, issueStorePull]

theorem makeCount (isDocker : String) (opts : Options) (param : String)
    (s : Store) (tr : List Cmd) (k : Bool) (n : String) :
    countNamed (make isDocker opts param ⟨s, tr, k⟩).store n = countNamed s n := by
  by_cases hd : isDocker = "true"
  · unfold make
    rw [if_pos hd, issueStoreLocalMake]
  · unfold make
    rw [if_neg hd, issueStoreExecMake]
    cases k with
    | false => rfl
    | true =>
      by_cases hany : ∃ c ∈ s, c.name = opts.PROJECT_NAME
      · simp [issue, engineStep, hany]
        exact countNamedMapOfName s n _ (fun c => by split <;> rfl)
      · simp [issue, engineStep, hany]

theorem updateStore (isDocker : String) (opts : Options) (version : String) (o : Outcome) :
    (update isDocker opts version o).store = (stop isDocker opts o).store := by
  unfold update
  split
  · rw [stopInDocker isDocker opts o (by assumption)]
  · rw [if_pos (show UPDATE_LATEST = true from rfl)]
    rw [issueStorePush, issueStoreTag, issueStorePush]

theorem buildDragonCount (isDocker : String) (opts : Options) (version : String)
    (s : Store) (tr : List Cmd) (hwf : wellFormed s = true)
    (hle : countNamed s opts.PROJECT_NAME ≤ 1) :
    countNamed (buildDragon isDocker opts version ⟨s, tr, true⟩).store
      opts.PROJECT_NAME ≤ 1 := by
  unfold buildDragon
  rw [issueBuild _ _ _ rfl]
  by_cases hd : isDocker = "true"
  · unfold startToolchain
    rw [if_pos hd]
    exact hle
  · exact le_of_eq (startToolchainCount isDocker opts version true s _ hd hwf).1

theorem runOpCountLe (isDocker : String) (opts : Options) (version : String)
    (op : LifecycleOp) (s : Store) (hwf : wellFormed s = true)
    (hle : countNamed s opts.PROJECT_NAME ≤ 1) :
    countNamed (runOp isDocker opts version op s).store opts.PROJECT_NAME ≤ 1 := by
  cases op with
  | startOp fl =>
    by_cases hd : isDocker = "true"
    · show countNamed (startToolchain isDocker opts version fl ⟨s, [], true⟩).store _ ≤ 1
      unfold startToolchain
      rw [if_pos hd]
      exact hle
    · exact le_of_eq (startToolchainCount isDocker opts version fl s [] hd hwf).1
  | stopOp => exact le_trans (stopCountLe isDocker opts ⟨s, [], true⟩ _) hle
  | downloadOp =>
    show countNamed (download isDocker opts version ⟨s, [], true⟩).store _ ≤ 1
    rw [downloadStore]
    exact hle
  | makeOp p =>
    show countNamed (make isDocker opts p ⟨s, [], true⟩).store _ ≤ 1
    rw [makeCount]
    exact hle
  | initOp =>
    show countNamed (initAction isDocker opts version ⟨s, [], true⟩).store _ ≤ 1
    unfold initAction
    split
    · exact hle
    · rw [issueBuild _ _ _ rfl]
      exact buildDragonCount isDocker opts version s _ hwf hle
  | buildDragonOp => exact buildDragonCount isDocker opts version s [] hwf hle
  | updateOp =>
    show countNamed (update isDocker opts version ⟨s, [], true⟩).store _ ≤ 1
    rw [updateStore]
    exact le_trans (stopCountLe isDocker opts ⟨s, [], true⟩ _) hle

/-! ### Lemmas about `make` and `install` -/

theorem installDepsNeOk (deps : List Dep) (d : Dep) (hm : d ∈ deps) (e : String)
    (he : processDep d = Except.error e) : installDeps deps ≠ Except.ok () := by
  induction deps with
  | nil => simp at hm
  | cons a t ih =>
    rcases List.mem_cons.mp hm with h | h
    · subst h
      simp [installDeps, List.findSome?, he]
    · cases hpa : processDep a with
      | error e2 => simp [installDeps, List.findSome?, hpa]
      | ok v =>
        have ht := ih h
        simp only [installDeps, List.findSome?, hpa] at ht ⊢
        exact ht

/-! ### Claim theorems -/

/-- Claim C1 (code-bug evaluation): on a Windows-style host (separator
backslash) the install path translation of a dependency at relative
components `a\b\c` yields `/libdragon/a/b\c/` — only the FIRST separator is
replaced because the regular expression lacks the global flag — instead of
the `/libdragon/a/b/c` required by the claim; on a forward-slash host the
translation agrees with the claim up to a trailing slash. -/
theorem c1_translation_eval :
    containerPathOf '\\' "libdragon" ["a", "b", "c"] = "/libdragon/a/b\\c/"
    ∧ containerPathOf '\\' "libdragon" ["a", "b", "c"] ≠ "/libdragon/a/b/c"
    ∧ containerPathOf '/' "libdragon" ["a", "b", "c"] = "/libdragon/a/b/c/" := by
  decide

/-- Claim C2: outside a container, running `startToolchain` twice in
succession (from any well-formed engine store) leaves exactly one container
bearing the project name — as does a single run — and every lifecycle
operation preserves the invariant that at most one container with the
reserved name exists. -/
theorem c2_start_idempotent_and_unique (isDocker : String) (opts : Options)
    (version : String) (fl1 fl2 : Bool) (s s2 : Store) (op : LifecycleOp)
    (hd : isDocker ≠ "true") (hwf : wellFormed s = true)
    (hwf2 : wellFormed s2 = true) (hle : countNamed s2 opts.PROJECT_NAME ≤ 1) :
    countNamed ((runOp isDocker opts version (LifecycleOp.startOp fl2)
        ((runOp isDocker opts version (LifecycleOp.startOp fl1) s).store)).store)
      opts.PROJECT_NAME = 1
    ∧ countNamed ((runOp isDocker opts version (LifecycleOp.startOp fl1) s).store)
      opts.PROJECT_NAME = 1
    ∧ countNamed ((runOp isDocker opts version op s2).store) opts.PROJECT_NAME ≤ 1 := by
  have h1 := startToolchainCount isDocker opts version fl1 s [] hd hwf
  have h2 := startToolchainCount isDocker opts version fl2
      ((runOp isDocker opts version (LifecycleOp.startOp fl1) s).store) [] hd h1.2
  exact ⟨h2.1, h1.1, runOpCountLe isDocker opts version op s2 hwf2 hle⟩

/-- Witness for C2 at a concrete store. -/
theorem c2_witness :
    countNamed ((runOp "false" defaultOptions "1.0.0" (LifecycleOp.startOp false)
        ((runOp "false" defaultOptions "1.0.0" (LifecycleOp.startOp false)
          ([] : Store)).store)).store) defaultOptions.PROJECT_NAME = 1
    ∧ countNamed ((runOp "false" defaultOptions "1.0.0" (LifecycleOp.startOp false)
        ([] : Store)).store) defaultOptions.PROJECT_NAME = 1
    ∧ countNamed ((runOp "false" defaultOptions "1.0.0" LifecycleOp.stopOp
        [{ cid := "abc", name := "libdragon", running := true }]).store)
      defaultOptions.PROJECT_NAME ≤ 1 :=
  c2_start_idempotent_and_unique "false" defaultOptions "1.0.0" false false []
    [{ cid := "abc", name := "libdragon", running := true }] LifecycleOp.stopOp
    (by decide) (by decide) (by decide) (by decide)

/-- Claim C3 counterexample: a lone-newline listing output is truthy in
JavaScript, so the code treats the container as FOUND and does issue the
removal command — contradicting the claim that a whitespace-only listing
result is treated as absent and triggers no removal. -/
theorem c3_counterexample :
    jsTruthy "\n" = true
    ∧ ("\n".toList.all (fun c => c.isWhitespace)) = true
    ∧ lsOutput [{ cid := "", name := "libdragon", running := true }] "libdragon" = "\n"
    ∧ Cmd.dockerRmName "libdragon" ∈
        (stop "false" defaultOptions
          ⟨[{ cid := "", name := "libdragon", running := true }], [], true⟩).trace := by
  decide

/-- Claim C3 (amended): `startToolchain` and `stop` treat the container as
found — and issue their removal command — exactly when the listing output
is a non-empty string (JavaScript truthiness), regardless of whether that
string is whitespace-only. -/
theorem c3_found_iff_nonempty (isDocker : String) (opts : Options) (version : String)
    (fl : Bool) (s : Store) (L : String) (hd : isDocker ≠ "true")
    (hwf : wellFormed s = true) :
    ((Cmd.dockerRmName opts.PROJECT_NAME ∈ (stop isDocker opts ⟨s, [], true⟩).trace)
      ↔ jsTruthy (lsOutput s opts.PROJECT_NAME) = true)
    ∧ ((Cmd.containerRm (lsOutput s opts.PROJECT_NAME) ∈
        (startToolchain isDocker opts version fl ⟨s, [], true⟩).trace)
      ↔ jsTruthy (lsOutput s opts.PROJECT_NAME) = true)
    ∧ (jsTruthy L = true ↔ L ≠ "") := by
  refine ⟨?_, ?_, jsTruthyIff L⟩
  · by_cases hz : countNamed s opts.PROJECT_NAME = 0
    · have hf : jsTruthy (lsOutput s opts.PROJECT_NAME) = false := by
        rw [(lsOutputEqEmptyIff s _).mpr hz]
        rfl
      rw [stopAbsent isDocker opts s [] hd hz, hf]
      simp
    · have ht : jsTruthy (lsOutput s opts.PROJECT_NAME) = true :=
        (jsTruthyLsOutput s _).mpr hz
      rw [stopPresent isDocker opts s [] hd hz, ht]
      simp
  · by_cases hz : countNamed s opts.PROJECT_NAME = 0
    · have hf : jsTruthy (lsOutput s opts.PROJECT_NAME) = false := by
        rw [(lsOutputEqEmptyIff s _).mpr hz]
        rfl
      rw [startToolchainAbsent isDocker opts version fl s [] hd hz, hf]
      simp
    · have ht : jsTruthy (lsOutput s opts.PROJECT_NAME) = true :=
        (jsTruthyLsOutput s _).mpr hz
      rw [startToolchainPresent isDocker opts version fl s [] hd hz hwf, ht]
      simp

/-- Witness for the amended C3 at a concrete store. -/
theorem c3_witness :
    ((Cmd.dockerRmName defaultOptions.PROJECT_NAME ∈
        (stop "false" defaultOptions
          ⟨[{ cid := "abc", name := "libdragon", running := true }], [], true⟩).trace)
      ↔ jsTruthy (lsOutput [{ cid := "abc", name := "libdragon", running := true }]
          defaultOptions.PROJECT_NAME) = true)
    ∧ ((Cmd.containerRm (lsOutput [{ cid := "abc", name := "libdragon", running := true }]
          defaultOptions.PROJECT_NAME) ∈
        (startToolchain "false" defaultOptions "1.0.0" false
          ⟨[{ cid := "abc", name := "libdragon", running := true }], [], true⟩).trace)
      ↔ jsTruthy (lsOutput [{ cid := "abc", name := "libdragon", running := true }]
          defaultOptions.PROJECT_NAME) = true)
    ∧ (jsTruthy "x" = true ↔ "x" ≠ "") :=
  c3_found_iff_nonempty "false" defaultOptions "1.0.0" false
    [{ cid := "abc", name := "libdragon", running := true }] "x" (by decide) (by decide)

/-- Claim C4: with the environment variable IS_DOCKER equal to "true", each
of start, stop, download and update returns immediately: no external
command is issued (empty trace) and the engine store is unchanged. -/
theorem c4_in_container_noop (isDocker : String) (opts : Options) (version : String)
    (fl : Bool) (s : Store) (h : isDocker = "true") :
    runOp isDocker opts version (LifecycleOp.startOp fl) s = ⟨s, [], true⟩
    ∧ runOp isDocker opts version LifecycleOp.stopOp s = ⟨s, [], true⟩
    ∧ runOp isDocker opts version LifecycleOp.downloadOp s = ⟨s, [], true⟩
    ∧ runOp isDocker opts version LifecycleOp.updateOp s = ⟨s, [], true⟩ := by
  subst h
  exact ⟨rfl, rfl, rfl, rfl⟩

/-- Witness for C4 at a concrete store. -/
theorem c4_witness :
    runOp "true" defaultOptions "1.0.0" (LifecycleOp.startOp false) ([] : Store)
      = ⟨[], [], true⟩
    ∧ runOp "true" defaultOptions "1.0.0" LifecycleOp.stopOp ([] : Store) = ⟨[], [], true⟩
    ∧ runOp "true" defaultOptions "1.0.0" LifecycleOp.downloadOp ([] : Store) = ⟨[], [], true⟩
    ∧ runOp "true" defaultOptions "1.0.0" LifecycleOp.updateOp ([] : Store) = ⟨[], [], true⟩ :=
  c4_in_container_noop "true" defaultOptions "1.0.0" false [] rfl

/-- Claim C5: the derived self-build option is true exactly when the
resolved project name is the toolchain's own name and the CI environment
variable is the string "true". -/
theorem c5_self_build_iff (npmPackageName : Option String) (ciEnv cwd : String) :
    (optionsInit npmPackageName ciEnv cwd).SELF_BUILD = true ↔
      ((optionsInit npmPackageName ciEnv cwd).PROJECT_NAME = "libdragon"
        ∧ ciEnv = "true") := by
  simp only [optionsInit, selfBuildOf]
  by_cases h : projectNameOf npmPackageName = "libdragon" <;>
    by_cases h2 : ciEnv = "true" <;>
      simp [h, h2]

/-- Claim C6: on a store with no container bearing the reserved name,
`stop` succeeds, leaves the store unchanged, and issues only the listing
command — no removal command of any kind. -/
theorem c6_stop_absent_noop (isDocker : String) (opts : Options) (s : Store)
    (hz : countNamed s opts.PROJECT_NAME = 0) :
    (stop isDocker opts ⟨s, [], true⟩).ok = true
    ∧ (stop isDocker opts ⟨s, [], true⟩).store = s
    ∧ ∀ c ∈ (stop isDocker opts ⟨s, [], true⟩).trace,
        c = Cmd.psList opts.PROJECT_NAME := by
  by_cases hd : isDocker = "true"
  · rw [stopInDocker isDocker opts _ hd]
    exact ⟨rfl, rfl, by simp⟩
  · rw [stopAbsent isDocker opts s [] hd hz]
    refine ⟨rfl, rfl, ?_⟩
    intro c hc
    simpa using hc

/-- Witness for C6 at the empty store. -/
theorem c6_witness :
    (stop "false" defaultOptions ⟨[], [], true⟩).ok = true
    ∧ (stop "false" defaultOptions ⟨[], [], true⟩).store = []
    ∧ ∀ c ∈ (stop "false" defaultOptions ⟨[], [], true⟩).trace,
        c = Cmd.psList defaultOptions.PROJECT_NAME :=
  c6_stop_absent_noop "false" defaultOptions [] (by decide)

/-- Claim C7: if some dependency resolves to more than one distinct install
path, the install phase rejects — regardless of how every other dependency
resolves — with that dependency's branch rejecting with the ambiguity
reason; a dependency resolving to exactly one distinct path never produces
the ambiguity error. -/
theorem c7_ambiguous_dep_rejects (deps : List Dep) (d0 d1 : Dep)
    (hmem : d0 ∈ deps) (hamb : 1 < (resolvePaths d0.npmOut).length) :
    installDeps deps ≠ Except.ok ()
    ∧ processDep d0 = Except.error AMBIGUOUS_MSG
    ∧ ((resolvePaths d1.npmOut).length = 1 →
        processDep d1 ≠ Except.error AMBIGUOUS_MSG) := by
  have h0 : processDep d0 = Except.error AMBIGUOUS_MSG := by
    simp only [processDep]
    rw [if_pos hamb]
  refine ⟨installDepsNeOk deps d0 hmem AMBIGUOUS_MSG h0, h0, ?_⟩
  intro hlen hcontra
  obtain ⟨p, hp⟩ := List.length_eq_one.mp hlen
  rw [processDep] at hcontra
  simp only [hp] at hcontra
  rcases hmk : d1.hasMakefile with _ | _ <;> rcases hok : d1.makeOk with _ | _ <;>
    simp [hmk, hok, AMBIGUOUS_MSG] at hcontra

/-- Witness for C7 on a concrete dependency set. -/
theorem c7_witness :
    installDeps [⟨"a", "p1", true, true⟩, ⟨"b", "p2\np3", true, true⟩] ≠ Except.ok ()
    ∧ processDep ⟨"b", "p2\np3", true, true⟩ = Except.error AMBIGUOUS_MSG
    ∧ ((resolvePaths (Dep.npmOut ⟨"a", "p1", true, true⟩)).length = 1 →
        processDep ⟨"a", "p1", true, true⟩ ≠ Except.error AMBIGUOUS_MSG) :=
  c7_ambiguous_dep_rejects [⟨"a", "p1", true, true⟩, ⟨"b", "p2\np3", true, true⟩]
    ⟨"b", "p2\np3", true, true⟩ ⟨"a", "p1", true, true⟩ (by simp) (by decide)

/-- Claim C8 counterexample: with working directory `/home/user`, the flag
`--mount-path=/abs` carries an absolute path, yet MOUNT_PATH becomes
`/home/user/abs` — the absolute path joined onto the working directory —
and not `/abs` itself. -/
theorem c8_counterexample :
    handleMountPath "/home/user" "--mount-path=/abs" = "/home/user/abs"
    ∧ handleMountPath "/home/user" "--mount-path=/abs" ≠ "/abs"
    ∧ specMountPath "/home/user" "/abs" = "/abs" := by
  decide

/-- Claim C8 (amended): MOUNT_PATH is always `path.join(cwd, P)`: for a
relative P this agrees with resolving P against the working directory, but
an absolute P is also joined onto the working directory (its leading
separator is not honoured) rather than kept as P itself. -/
theorem c8_mount_path_join (cwd P : String)
    (hval : mountPathValue ("--mount-path=" ++ P) = P) :
    (strStartsWith P "/" = false →
      handleMountPath cwd ("--mount-path=" ++ P) = specMountPath cwd P)
    ∧ (strStartsWith P "/" = true →
      handleMountPath cwd ("--mount-path=" ++ P) = posixJoin [cwd, P]) := by
  constructor
  · intro h
    have h2 : ¬(strStartsWith P "/" = true) := by
      rw [h]
      exact Bool.false_ne_true
    simp only [handleMountPath, specMountPath, hval]
    rw [if_neg h2]
  · intro h
    simp only [handleMountPath, hval]

/-- Witness for the amended C8 at a concrete relative path. -/
theorem c8_witness :
    (strStartsWith "sub" "/" = false →
      handleMountPath "/home/user" ("--mount-path=" ++ "sub")
        = specMountPath "/home/user" "sub")
    ∧ (strStartsWith "sub" "/" = true →
      handleMountPath "/home/user" ("--mount-path=" ++ "sub")
        = posixJoin ["/home/user", "sub"]) :=
  c8_mount_path_join "/home/user" "sub" (by decide)

/-- Claim C9: outside a container, `make` always issues `docker start` for
the reserved-name container as its first command; whenever a container with
that name exists (running or stopped), the full command sequence is the
start followed by the `docker exec ... make`, and the operation succeeds. -/
theorem c9_make_start_then_exec (isDocker : String) (opts : Options) (param : String)
    (s : Store) (hd : isDocker ≠ "true") :
    (make isDocker opts param ⟨s, [], true⟩).trace.head? =
      some (Cmd.dockerStart opts.PROJECT_NAME)
    ∧ ((∃ c ∈ s, c.name = opts.PROJECT_NAME) →
        (make isDocker opts param ⟨s, [], true⟩).trace =
          [Cmd.dockerStart opts.PROJECT_NAME, Cmd.dockerExecMake opts.PROJECT_NAME param]
        ∧ (make isDocker opts param ⟨s, [], true⟩).ok = true) := by
  unfold make
  rw [if_neg hd]
  by_cases hany : ∃ c ∈ s, c.name = opts.PROJECT_NAME
  · obtain ⟨c, hc, hn⟩ := hany
    have hany2 : ∃ x ∈ s, x.name = opts.PROJECT_NAME := ⟨c, hc, hn⟩
    refine ⟨?_, fun _ => ⟨?_, ?_⟩⟩
    · simp [issue, engineStep, hany2]
    · simp [issue, engineStep, hany2]
    · simp [issue, engineStep, hany2]
      refine ⟨c, hc, ?_⟩
      rw [if_pos hn]
      exact ⟨hn, rfl⟩
  · refine ⟨?_, fun hex => absurd hex hany⟩
    simp [issue, engineStep, hany]

/-- Witness for C9 at a concrete store holding a stopped container. -/
theorem c9_witness :
    (make "false" defaultOptions "-C x"
      ⟨[{ cid := "abc", name := "libdragon", running := false }], [], true⟩).trace.head? =
      some (Cmd.dockerStart defaultOptions.PROJECT_NAME)
    ∧ ((∃ c ∈ ([{ cid := "abc", name := "libdragon", running := false }] : Store),
          c.name = defaultOptions.PROJECT_NAME) →
        (make "false" defaultOptions "-C x"
          ⟨[{ cid := "abc", name := "libdragon", running := false }], [], true⟩).trace =
          [Cmd.dockerStart defaultOptions.PROJECT_NAME,
            Cmd.dockerExecMake defaultOptions.PROJECT_NAME "-C x"]
        ∧ (make "false" defaultOptions "-C x"
          ⟨[{ cid := "abc", name := "libdragon", running := false }], [], true⟩).ok = true) :=
  c9_make_start_then_exec "false" defaultOptions "-C x"
    [{ cid := "abc", name := "libdragon", running := false }] (by decide)

/-! ### Lemmas about the dispatcher -/

theorem dispatchStepHalted (cwd : String) (i : Nat) (v : String) (rest : List String)
    (st : DispState) (hv : v ≠ "--help")
    (hp : protoActionNames.contains v = false) :
    (dispatchStep cwd i v rest st).halted = st.halted := by
  unfold dispatchStep
  repeat' split
  all_goals first
    | rfl
    | simp_all

theorem dispatchStepInvocations (cwd : String) (i : Nat) (v : String) (rest : List String)
    (st : DispState) :
    ∃ add, (dispatchStep cwd i v rest st).invocations = st.invocations ++ add := by
  unfold dispatchStep
  repeat' split
  all_goals first
    | exact ⟨[], (List.append_nil _).symm⟩
    | exact ⟨[(v, joinSep " " rest)], rfl⟩

theorem dispatchGoInvocationsMono (cwd : String) (l : List String) :
    ∀ (i : Nat) (st : DispState) (x : String × String),
      x ∈ st.invocations → x ∈ (dispatchGo cwd i l st).invocations := by
  induction l with
  | nil =>
    intro i st x hx
    exact hx
  | cons v rest ih =>
    intro i st x hx
    show x ∈ (dispatchGo cwd (i + 1) rest (dispatchStep cwd i v rest st)).invocations
    apply ih
    obtain ⟨add, hadd⟩ := dispatchStepInvocations cwd i v rest st
    rw [hadd]
    exact List.mem_append_left _ hx

theorem dispatchGoThrough (cwd : String) (m : List String) :
    ∀ (l : List String) (i : Nat) (st : DispState), 1 ≤ i → st.halted = false →
      (∀ x ∈ l, x ≠ "--help" ∧ protoActionNames.contains x = false) →
      ∃ (st2 : DispState) (j : Nat),
        dispatchGo cwd i (l ++ m) st = dispatchGo cwd j m st2
        ∧ st2.halted = false ∧ 1 ≤ j := by
  intro l
  induction l with
  | nil =>
    intro i st hi hh _
    exact ⟨st, i, rfl, hh, hi⟩
  | cons v rest ih =>
    intro i st hi hh hnh
    have hv := hnh v (List.mem_cons_self _ _)
    have hh2 : (dispatchStep cwd i v (rest ++ m) st).halted = false := by
      rw [dispatchStepHalted cwd i v _ st hv.1 hv.2]
      exact hh
    exact ih (i + 1) _ (le_trans hi (Nat.le_succ i)) hh2
      (fun x hx => hnh x (List.mem_cons_of_mem _ hx))

theorem actionNotFlag (v : String) (hv : actionNames.contains v = true) :
    strStartsWith v "--mount-path=" = false ∧ v ≠ "--byte-swap" ∧ v ≠ "--help"
    ∧ protoActionNames.contains v = false := by
  have hm : v ∈ actionNames := List.elem_iff.mp hv
  simp only [actionNames, List.mem_cons, List.not_mem_nil, or_false] at hm
  rcases hm with rfl | rfl | rfl | rfl | rfl | rfl | rfl | rfl <;>
    exact ⟨by decide, by decide, by decide, by decide⟩

/-- Claim C10 counterexample: with `--help` at index 1 — or with an
argument such as `constructor` naming a function inherited from
`Object.prototype`, whose invocation kills the process — a later argument
that exactly matches the action name `stop` is never examined, so no
action is invoked, contradicting the claim that each exactly-matching
argument triggers its mapped action. -/
theorem c10_counterexample :
    actionNames.contains "stop" = true
    ∧ (dispatch "/cwd" ["node", "--help", "stop"] defaultOptions).invocations = []
    ∧ protoActionNames.contains "constructor" = true
    ∧ (dispatch "/cwd" ["node", "script", "constructor", "stop"]
        defaultOptions).invocations = [] := by
  decide

/-- Claim C10 (amended): the dispatcher examines every argument at index 1
or greater, including the script path at index 1; every such argument
exactly matching an action name triggers the mapped action — provided no
earlier argument at index 1 or greater is `--help` (which exits the
process) or names a function inherited from `Object.prototype` (whose
invocation ends in an uncaught TypeError) — passing it the space-joined
concatenation of all arguments following its own position; so each of two
action verbs on one command line is invoked with its own tail. -/
theorem c10_dispatch_invokes (cwd : String) (opts : Options) (pre post : List String)
    (v : String) (hpre : 1 ≤ pre.length) (hv : actionNames.contains v = true)
    (hnh : ∀ x ∈ pre.drop 1, x ≠ "--help" ∧ protoActionNames.contains x = false) :
    (v, joinSep " " post) ∈ (dispatch cwd (pre ++ v :: post) opts).invocations := by
  obtain ⟨a0, pre2, rfl⟩ : ∃ a0 pre2, pre = a0 :: pre2 := by
    cases pre with
    | nil => simp at hpre
    | cons a t => exact ⟨a, t, rfl⟩
  have hnh2 : ∀ x ∈ pre2, x ≠ "--help" ∧ protoActionNames.contains x = false := by
    intro x hx
    exact hnh x (by simpa using hx)
  have hd0 : dispatch cwd ((a0 :: pre2) ++ v :: post) opts
      = dispatchGo cwd 1 (pre2 ++ v :: post)
          { opts := opts, invocations := [], halted := false } := rfl
  rw [hd0]
  obtain ⟨st2, j, heq, hhalt, hj⟩ :=
    dispatchGoThrough cwd (v :: post) pre2 1
      { opts := opts, invocations := [], halted := false } (le_refl 1) rfl hnh2
  rw [heq]
  obtain ⟨hflag, hbs, hhelp, hproto⟩ := actionNotFlag v hv
  have hstep : (dispatchStep cwd j v post st2).invocations
      = st2.invocations ++ [(v, joinSep " " post)] := by
    unfold dispatchStep
    rw [if_neg (show ¬(st2.halted = true) from by
        rw [hhalt]
        exact Bool.false_ne_true)]
    rw [if_neg (Nat.not_lt.mpr hj)]
    rw [if_neg (show ¬(strStartsWith v "--mount-path=" = true) from by
        rw [hflag]
        exact Bool.false_ne_true)]
    rw [if_neg hbs, if_neg hhelp, if_pos hv]
  show (v, joinSep " " post) ∈
    (dispatchGo cwd (j + 1) post (dispatchStep cwd j v post st2)).invocations
  apply dispatchGoInvocationsMono
  rw [hstep]
  exact List.mem_append_right _ (List.mem_singleton.mpr rfl)

/-- Witness for the amended C10: a command line whose index-1 argument is
the verb `make` and whose index-3 argument is the verb `stop`; the `stop`
verb is invoked with the empty tail. -/
theorem c10_witness :
    ("stop", joinSep " " ([] : List String)) ∈
      (dispatch "/cwd" (["node", "make", "-C"] ++ "stop" :: ([] : List String))
        defaultOptions).invocations :=
  c10_dispatch_invokes "/cwd" defaultOptions ["node", "make", "-C"] [] "stop"
    (by decide) (by decide) (by decide)

/-- Two-verb evaluation illustrating the amended C10 on one command line:
the dispatcher invokes `make` with the tail `-C x stop` and, afterwards,
`stop` with the empty tail. -/
theorem dispatchTwoVerbsEval :
    (dispatch "/cwd" ["node", "make", "-C", "x", "stop"] defaultOptions).invocations
      = [("make", "-C x stop"), ("stop", "")] := by
  decide

end Dragon
